import Mathlib

/-
Verification of subsys/bootloader/bl_validation/bl_validation.c
(secure-bootloader firmware validation) against its specification.

The C code is shallowly embedded: machine integers (u16_t/u32_t) are
modelled as Nat, with explicit `% 2 ^ 32` at every point where the C
performs 32-bit wrapping address arithmetic.  External collaborators
(the bl_storage key/counter backend, the crypto root-of-trust call,
the fw_info.h scanner, raw memory) are passed in as explicit
parameters/functions, so every theorem quantifies over all possible
collaborator behaviours.
-/

namespace BlValidation

/- ===== Monotonic counter adapter (bl_validation.c lines 14-38) ===== -/

/-- The value written to the hardware counter by set_monotonic_version:
the C expression `(version << 1) | !slot` (C `!` maps 0 to 1 and
everything else to 0). -/
def monotonic_counter_word (version slot : Nat) : Nat :=
  (version <<< 1) ||| (if slot = 0 then 1 else 0)

/-- Embedding of `set_monotonic_version`.  The bl_storage backend call
`set_monotonic_counter` is a parameter; `num_monotonic_counter_slots`
is only consulted to pick which diagnostic message is printed (logging
is elided), and the backend result `err` is what the function returns. -/
def set_monotonic_version (version slot : Nat) (_num_monotonic_counter_slots : Nat)
    (set_monotonic_counter : Nat → Int) : Int :=
  set_monotonic_counter (monotonic_counter_word version slot)

/-- Version part of `get_monotonic_version`: reads the hardware counter
value `v` and returns `v >> 1`. -/
def get_monotonic_version (monotonic_counter : Nat) : Nat :=
  monotonic_counter >>> 1

/-- Slot part of `get_monotonic_version` (written through `slot_out`):
`!(v & 1)`. -/
def get_monotonic_version_slot (monotonic_counter : Nat) : Nat :=
  if monotonic_counter &&& 1 = 0 then 1 else 0

/- ===== Region arithmetic (bl_validation.c lines 255-288) ===== -/

/-- Embedding of `within` (addresses are u32; the function only
compares, so it is stated over Nat). -/
def within (addr start endAddr : Nat) : Bool :=
  if start > endAddr then false
  else if addr < start then false
  else if addr ≥ endAddr then false
  else true

/-- Embedding of `region_within`. -/
def region_within (inner_start inner_end start endAddr : Nat) : Bool :=
  if inner_start > inner_end then false
  else if ! within inner_start start endAddr then false
  else if ! within inner_end start endAddr then false
  else true

/- ===== Trust verifier, signature mode (lines 143-224) ===== -/

/-- Result of `public_key_data_read` for one key slot: a non-negative
return with the key hash data, or one of the three negative error
codes distinguished by the C code (-EINVAL = invalidated key,
-EHASHFF = unsupported 0xFFFF sentinel, any other negative = storage
fault). -/
inductive KeyReadResult where
  | ok (hash : Nat)
  | invalidated
  | unsupportedSentinel
  | fault
deriving DecidableEq, Repr

/-- Result of the root-of-trust verification call `rot_verify`:
0 = success, -EHASHINV = public-key-hash mismatch, -ESIGINV =
signature invalid, any other nonzero = other error.  The C code
branches only on `retval == 0` and `retval == -EHASHINV`. -/
inductive RotResult where
  | success
  | hashMismatch
  | sigInvalid
  | otherError
deriving DecidableEq, Repr

/-- Effect of the `for (i = 0; i < key_data_idx; i++)
invalidate_public_key(i);` loop on the key store (lines 200-203):
slots 0 .. k-1 are marked invalidated, in ascending order. -/
def invalidateBelow (keys : List KeyReadResult) (k : Nat) : List KeyReadResult :=
  (List.range k).foldl (fun ks i => ks.set i .invalidated) keys

/-- The key-scanning loop of `validate_signature` (lines 166-209).
`keys` is the key store contents indexed by slot; the loop walks the
suffix `rest = keys.drop i` with `i` the current `key_data_idx`.
`verify` gives the outcome of `rot_verify` for each key index (the
other rot_verify arguments are fixed for the whole loop).  Returns the
boolean verdict together with the key store left behind. -/
def sigLoop (verify : Nat → RotResult) (keys : List KeyReadResult) :
    List KeyReadResult → Nat → Bool × List KeyReadResult
  | [], _ => (false, keys)
  | r :: rest, i =>
    match r with
    | .invalidated => sigLoop verify keys rest (i + 1)
    | .unsupportedSentinel => (false, keys)
    | .fault => (false, keys)
    | .ok _ =>
      match verify i with
      | .success => (true, invalidateBelow keys i)
      | .hashMismatch => sigLoop verify keys rest (i + 1)
      | .sigInvalid => (false, keys)
      | .otherError => (false, keys)

/-- Embedding of `validate_signature`.  `init_retval` is the result of
`bl_crypto_init()`; a nonzero value returns false before the loop.
After the loop the C returns false whenever `retval != 0` and true
exactly when the loop broke out with `retval == 0` (which also set
`validated = true`). -/
def validate_signature (init_retval : Int) (keys : List KeyReadResult)
    (verify : Nat → RotResult) : Bool × List KeyReadResult :=
  if init_retval ≠ 0 then (false, keys)
  else sigLoop verify keys keys 0

/-- The loop continues past index j: slot j read as invalidated, or
read ok and the root-of-trust call reported a key-hash mismatch. -/
def continuesAt (keys : List KeyReadResult) (verify : Nat → RotResult) (j : Nat) : Prop :=
  keys[j]? = some .invalidated ∨
    (∃ h, keys[j]? = some (.ok h) ∧ verify j = .hashMismatch)

/-- The loop succeeds at index k: slot k read ok and the root-of-trust
call succeeded. -/
def succeedsAt (keys : List KeyReadResult) (verify : Nat → RotResult) (k : Nat) : Prop :=
  (∃ h, keys[k]? = some (.ok h)) ∧ verify k = .success

/- ===== Scanner (lines 114-139) ===== -/

/-- Embedding of `validation_info_check`: the memcmp of the magic words
at address `vinfo` is abstracted as the predicate `vmagic_at`.  The C
function has return type bool but returns the pointer `vinfo` itself
on a magic match, so a match at address 0 converts to false. -/
def validation_info_check (vmagic_at : Nat → Bool) (vinfo : Nat) : Bool :=
  if vmagic_at vinfo then decide (vinfo ≠ 0) else false

/-- Embedding of `validation_info_find`: scan offsets
0 .. search_distance (inclusive) from `start_address`, returning the
first address whose magic checks out.  Pointer arithmetic on u32
addresses wraps mod 2^32. -/
def validation_info_find (vmagic_at : Nat → Bool) (start_address search_distance : Nat) :
    Option Nat :=
  (List.range (search_distance + 1)).findSome? (fun i =>
    if validation_info_check vmagic_at ((start_address + i) % 2 ^ 32) then
      some ((start_address + i) % 2 ^ 32)
    else none)

/- ===== Firmware validator / orchestrator (lines 291-380) ===== -/

/-- Modelled from the spec: the fields of `struct fw_info` (declared in
fw_info.h, which is not part of the sources here; the field set is the
one bl_validation.c reads: address, size, total_size, version, valid,
boot_address). -/
structure fw_info where
  address : Nat
  size : Nat
  total_size : Nat
  version : Nat
  valid : Nat
  boot_address : Nat
deriving DecidableEq, Repr

/-- The environment of external collaborators consulted by
`validate_firmware`.  `fw_info_check` and `fw_info_find` are modelled
from the spec (fw_info.h is not among the sources): the former is the
magic check on a supplied struct address, the latter returns the
address of the firmware info found from a base address, if any.
`info_at` gives the struct contents at an address, `mem_word` a 32-bit
word read, `monotonic_counter` the hardware counter value,
`vmagic_at`/`vinfo_address_at` the validation-info magic match and its
address field, and `rot_verify va k` the root-of-trust outcome for the
validation info at `va` and key index `k`. -/
structure BlEnv where
  fw_info_check : Nat → Bool
  fw_info_find : Nat → Option Nat
  info_at : Nat → fw_info
  valid_val : Nat
  monotonic_counter : Nat
  mem_word : Nat → Nat
  vmagic_at : Nat → Bool
  vinfo_address_at : Nat → Nat
  rot_verify : Nat → Nat → RotResult

/-- The last steps of `validate_firmware` (source lines 359-373):
given the result of the `validation_info_find` scan, fail when nothing
was found, fail when the found validation info's address field does
not equal the firmware info's address, and otherwise delegate to
`validate_signature`. -/
def validate_firmware_tail (init_retval : Int) (keys : List KeyReadResult)
    (e : BlEnv) (info_address : Nat) (fw_val_info : Option Nat) :
    Bool × List KeyReadResult :=
  match fw_val_info with
  | none => (false, keys)
  | some va =>
    if e.vinfo_address_at va ≠ info_address then (false, keys)
    else validate_signature init_retval keys (e.rot_verify va)

/-- Embedding of `validate_firmware` (signature-mode build, the
configuration the spec describes).  `s0`/`s1` are PM_S0_SIZE and
PM_S1_SIZE, `fwinfo` the supplied struct pointer (none = NULL),
`init_retval`/`keys` the crypto-init result and key store handed to
the delegated `validate_signature`.  Every early return leaves the key
store untouched; 32-bit address additions are taken mod 2^32.  The
last three source steps (locate the validation info, require it, check
its address binding, delegate) are factored into
`validate_firmware_tail` above. -/
def validate_firmware (s0 s1 : Nat) (init_retval : Int) (keys : List KeyReadResult)
    (e : BlEnv) (fw_dst_address fw_src_address : Nat) (fwinfo : Option Nat)
    (external : Bool) : Bool × List KeyReadResult :=
  match fwinfo with
  | none => (false, keys)
  | some p =>
    if ! e.fw_info_check p then (false, keys)
    else if fw_dst_address ≠ (e.info_at p).address then (false, keys)
    else if !external && fw_src_address ≠ fw_dst_address then (false, keys)
    else if e.fw_info_find fw_src_address ≠ some p then (false, keys)
    else if (e.info_at p).valid ≠ e.valid_val then (false, keys)
    else if (e.info_at p).version < get_monotonic_version e.monotonic_counter then
      (false, keys)
    else if (e.info_at p).size > s0 || (e.info_at p).size > s1 ||
        (e.info_at p).total_size > (e.info_at p).size then (false, keys)
    else if ! region_within p ((p + (e.info_at p).total_size) % 2 ^ 32)
        fw_src_address ((fw_src_address + (e.info_at p).size) % 2 ^ 32) then
      (false, keys)
    else if ! within (e.info_at p).boot_address
        fw_dst_address ((fw_dst_address + (e.info_at p).size) % 2 ^ 32) then
      (false, keys)
    else if ! within (e.mem_word (((e.info_at p).boot_address + 4) % 2 ^ 32))
        fw_dst_address ((fw_dst_address + (e.info_at p).size) % 2 ^ 32) then
      (false, keys)
    else validate_firmware_tail init_retval keys e (e.info_at p).address
      (validation_info_find e.vmagic_at
        ((fw_src_address + (e.info_at p).size) % 2 ^ 32) 4)

/- ===== Concrete fixtures used by witnesses ===== -/

/-- A three-slot key store whose reads all succeed. -/
def exKeys : List KeyReadResult := [.ok 10, .ok 11, .ok 12]

/-- Root-of-trust outcomes: key 0 hash-mismatches, key 1 verifies. -/
def exVerify : Nat → RotResult := fun i => if i = 1 then .success else .hashMismatch

/-- Root-of-trust outcome: every key signature-invalid. -/
def exVerifyFail : Nat → RotResult := fun _ => .sigInvalid

/-- A firmware info struct for a well-formed candidate image. -/
def exInfo : fw_info :=
  { address := 0x8000, size := 0x1000, total_size := 0x200,
    version := 3, valid := 0x9102FFFF, boot_address := 0x8400 }

/-- A firmware info whose signed region wraps past 2^32 when based at
a high source address. -/
def exInfoWrap : fw_info :=
  { address := 0xFFFFF000, size := 0x2000, total_size := 0x200,
    version := 3, valid := 0x9102FFFF, boot_address := 0xFFFFF400 }

/-- Environment in which the stored monotonic version is 5 (counter
word 11 = 5 << 1 | 1), higher than the candidate version 3. -/
def exEnvRoll : BlEnv :=
  { fw_info_check := fun _ => true
    fw_info_find := fun _ => some 0x8100
    info_at := fun _ => exInfo
    valid_val := 0x9102FFFF
    monotonic_counter := 11
    mem_word := fun _ => 0x8500
    vmagic_at := fun _ => true
    vinfo_address_at := fun _ => 0x8000
    rot_verify := fun _ => exVerify }

/-- The same environment but with stored monotonic version 3 (counter
word 6), equal to the candidate version. -/
def exEnvOk : BlEnv := { exEnvRoll with monotonic_counter := 6 }

/-- Environment serving `exInfoWrap`. -/
def exEnvWrap : BlEnv := { exEnvRoll with info_at := fun _ => exInfoWrap }

/- ===== Helper lemmas ===== -/

theorem two_mul_lor_one (v : Nat) : 2 * v ||| 1 = 2 * v + 1 := by
  have h := Nat.lor_bit false v true 0
  simp [Nat.bit] at h
  omega

theorem monotonic_counter_word_eq (version slot : Nat) :
    monotonic_counter_word version slot =
      2 * version + (if slot = 0 then 1 else 0) := by
  unfold monotonic_counter_word
  rw [Nat.shiftLeft_eq, pow_one, Nat.mul_comm]
  by_cases h : slot = 0
  · simp [h, two_mul_lor_one]
  · simp [h]

theorem within_true_iff (addr start endAddr : Nat) :
    within addr start endAddr = true ↔
      start ≤ endAddr ∧ start ≤ addr ∧ addr < endAddr := by
  simp only [within]
  split_ifs <;> simp <;> omega

theorem region_within_true_iff (inner_start inner_end start endAddr : Nat) :
    region_within inner_start inner_end start endAddr = true ↔
      inner_start ≤ inner_end ∧
      within inner_start start endAddr = true ∧
      within inner_end start endAddr = true := by
  simp only [region_within]
  split_ifs with h1 h2 h3 <;> simp_all <;> omega

theorem invalidateBelow_succ (keys : List KeyReadResult) (k : Nat) :
    invalidateBelow keys (k + 1) =
      (invalidateBelow keys k).set k .invalidated := by
  unfold invalidateBelow
  rw [List.range_succ, List.foldl_append]
  rfl

theorem invalidateBelow_length (keys : List KeyReadResult) (k : Nat) :
    (invalidateBelow keys k).length = keys.length := by
  induction k with
  | zero => rfl
  | succ k ih => rw [invalidateBelow_succ, List.length_set, ih]

theorem invalidateBelow_getElem_ge (keys : List KeyReadResult) (k j : Nat)
    (h : k ≤ j) : (invalidateBelow keys k)[j]? = keys[j]? := by
  induction k with
  | zero => rfl
  | succ k ih =>
    rw [invalidateBelow_succ, List.getElem?_set_ne (by omega)]
    exact ih (by omega)

theorem invalidateBelow_getElem_lt (keys : List KeyReadResult) (k j : Nat)
    (hj : j < k) (hl : j < keys.length) :
    (invalidateBelow keys k)[j]? = some .invalidated := by
  induction k with
  | zero => omega
  | succ k ih =>
    rw [invalidateBelow_succ]
    by_cases hjk : j = k
    · subst hjk
      rw [List.getElem?_set_self]
      rw [invalidateBelow_length]
      simp [hl]
    · rw [List.getElem?_set_ne (by omega)]
      exact ih (by omega)

theorem exists_shift (keys : List KeyReadResult) (verify : Nat → RotResult) (i : Nat)
    (hcont : continuesAt keys verify i) (hnsucc : ¬ succeedsAt keys verify i) (k : Nat) :
    (i + 1 ≤ k ∧ k < keys.length ∧
      (∀ j, i + 1 ≤ j → j < k → continuesAt keys verify j) ∧
      succeedsAt keys verify k) ↔
    (i ≤ k ∧ k < keys.length ∧
      (∀ j, i ≤ j → j < k → continuesAt keys verify j) ∧
      succeedsAt keys verify k) := by
  constructor
  · rintro ⟨h1, h2, h3, h4⟩
    refine ⟨by omega, h2, ?_, h4⟩
    intro j hij hjk
    rcases Nat.eq_or_lt_of_le hij with rfl | hlt
    · exact hcont
    · exact h3 j (by omega) hjk
  · rintro ⟨h1, h2, h3, h4⟩
    have hik : i ≠ k := by rintro rfl; exact hnsucc h4
    exact ⟨by omega, h2, fun j hij hjk => h3 j (by omega) hjk, h4⟩

theorem exists_blocked (keys : List KeyReadResult) (verify : Nat → RotResult) (i : Nat)
    (hnc : ¬ continuesAt keys verify i) (hnsucc : ¬ succeedsAt keys verify i) :
    ¬ ∃ k, i ≤ k ∧ k < keys.length ∧
      (∀ j, i ≤ j → j < k → continuesAt keys verify j) ∧
      succeedsAt keys verify k := by
  rintro ⟨k, h1, h2, h3, h4⟩
  rcases Nat.eq_or_lt_of_le h1 with rfl | hlt
  · exact hnsucc h4
  · exact hnc (h3 i (le_refl i) hlt)

theorem sigLoop_spec (verify : Nat → RotResult) (keys : List KeyReadResult) :
    ∀ (rest : List KeyReadResult) (i : Nat), rest = keys.drop i →
      ((sigLoop verify keys rest i).1 = true ↔
        ∃ k, i ≤ k ∧ k < keys.length ∧
          (∀ j, i ≤ j → j < k → continuesAt keys verify j) ∧
          succeedsAt keys verify k) ∧
      ((sigLoop verify keys rest i).1 = false →
        (sigLoop verify keys rest i).2 = keys) ∧
      ((sigLoop verify keys rest i).1 = true →
        ∃ k, i ≤ k ∧ k < keys.length ∧
          (∀ j, i ≤ j → j < k → continuesAt keys verify j) ∧
          succeedsAt keys verify k ∧
          (sigLoop verify keys rest i).2 = invalidateBelow keys k) := by
  intro rest
  induction rest with
  | nil =>
    intro i hdrop
    have hlen : keys.length ≤ i := List.drop_eq_nil_iff.mp hdrop.symm
    refine ⟨?_, fun _ => rfl, fun h => absurd h (by simp [sigLoop])⟩
    constructor
    · intro h; exact absurd h (by simp [sigLoop])
    · rintro ⟨k, hik, hk, -, -⟩; omega
  | cons r rest ih =>
    intro i hdrop
    have hi : i < keys.length := by
      by_contra hcon
      rw [List.drop_eq_nil_iff.mpr (by omega)] at hdrop
      exact absurd hdrop (by simp)
    have hIdx : keys[i]? = some r := by
      have h0 : (keys.drop i)[0]? = keys[i + 0]? := List.getElem?_drop keys i 0
      rw [← hdrop] at h0
      simpa using h0.symm
    have hrest : rest = keys.drop (i + 1) := by
      have h1 : (keys.drop i).drop 1 = keys.drop (i + 1) := List.drop_drop ..
      rw [← hdrop] at h1
      simp only [List.drop_one, List.tail_cons] at h1
      exact h1
    cases r with
    | invalidated =>
      have hcont : continuesAt keys verify i := Or.inl hIdx
      have hnsucc : ¬ succeedsAt keys verify i := by
        rintro ⟨⟨hsh, hh⟩, -⟩
        rw [hIdx] at hh
        exact absurd hh (by simp)
      obtain ⟨ih1, ih2, ih3⟩ := ih (i + 1) hrest
      have hstep : sigLoop verify keys (KeyReadResult.invalidated :: rest) i =
          sigLoop verify keys rest (i + 1) := rfl
      rw [hstep]
      refine ⟨ih1.trans (exists_congr (exists_shift keys verify i hcont hnsucc)), ih2, ?_⟩
      intro ht
      obtain ⟨k, h1, h2, h3, h4, h5⟩ := ih3 ht
      exact ⟨k, by omega, h2,
        ((exists_shift keys verify i hcont hnsucc k).mp ⟨h1, h2, h3, h4⟩).2.2.1, h4, h5⟩
    | unsupportedSentinel =>
      have hnc : ¬ continuesAt keys verify i := by
        rintro (hinv | ⟨hsh, hh, -⟩) <;> rw [hIdx] at * <;> simp_all
      have hnsucc : ¬ succeedsAt keys verify i := by
        rintro ⟨⟨hsh, hh⟩, -⟩
        rw [hIdx] at hh
        exact absurd hh (by simp)
      refine ⟨?_, fun _ => rfl, fun h => absurd h (by simp [sigLoop])⟩
      constructor
      · intro h; exact absurd h (by simp [sigLoop])
      · intro hex; exact absurd hex (exists_blocked keys verify i hnc hnsucc)
    | fault =>
      have hnc : ¬ continuesAt keys verify i := by
        rintro (hinv | ⟨hsh, hh, -⟩) <;> rw [hIdx] at * <;> simp_all
      have hnsucc : ¬ succeedsAt keys verify i := by
        rintro ⟨⟨hsh, hh⟩, -⟩
        rw [hIdx] at hh
        exact absurd hh (by simp)
      refine ⟨?_, fun _ => rfl, fun h => absurd h (by simp [sigLoop])⟩
      constructor
      · intro h; exact absurd h (by simp [sigLoop])
      · intro hex; exact absurd hex (exists_blocked keys verify i hnc hnsucc)
    | ok hsh =>
      cases hv : verify i with
      | success =>
        have hsucc : succeedsAt keys verify i := ⟨⟨hsh, hIdx⟩, hv⟩
        have hstep : sigLoop verify keys (KeyReadResult.ok hsh :: rest) i =
            (true, invalidateBelow keys i) := by
          simp [sigLoop, hv]
        rw [hstep]
        refine ⟨?_, by simp, ?_⟩
        · constructor
          · intro _
            exact ⟨i, le_refl i, hi, fun j hij hji => absurd hji (by omega), hsucc⟩
          · intro _; rfl
        · intro _
          exact ⟨i, le_refl i, hi, fun j hij hji => absurd hji (by omega), hsucc, rfl⟩
      | hashMismatch =>
        have hcont : continuesAt keys verify i := Or.inr ⟨hsh, hIdx, hv⟩
        have hnsucc : ¬ succeedsAt keys verify i := by
          rintro ⟨-, hs⟩
          exact absurd (hv.symm.trans hs) (by simp)
        obtain ⟨ih1, ih2, ih3⟩ := ih (i + 1) hrest
        have hstep : sigLoop verify keys (KeyReadResult.ok hsh :: rest) i =
            sigLoop verify keys rest (i + 1) := by
          simp [sigLoop, hv]
        rw [hstep]
        refine ⟨ih1.trans (exists_congr (exists_shift keys verify i hcont hnsucc)), ih2, ?_⟩
        intro ht
        obtain ⟨k, h1, h2, h3, h4, h5⟩ := ih3 ht
        exact ⟨k, by omega, h2,
          ((exists_shift keys verify i hcont hnsucc k).mp ⟨h1, h2, h3, h4⟩).2.2.1, h4, h5⟩
      | sigInvalid =>
        have hnc : ¬ continuesAt keys verify i := by
          rintro (hinv | ⟨hsh2, hh, hm⟩)
          · rw [hIdx] at hinv; simp_all
          · exact absurd (hv.symm.trans hm) (by simp)
        have hnsucc : ¬ succeedsAt keys verify i := by
          rintro ⟨-, hs⟩
          exact absurd (hv.symm.trans hs) (by simp)
        have hstep : sigLoop verify keys (KeyReadResult.ok hsh :: rest) i =
            (false, keys) := by
          simp [sigLoop, hv]
        rw [hstep]
        refine ⟨?_, fun _ => rfl, fun h => absurd h (by simp)⟩
        constructor
        · intro h; exact absurd h (by simp)
        · intro hex; exact absurd hex (exists_blocked keys verify i hnc hnsucc)
      | otherError =>
        have hnc : ¬ continuesAt keys verify i := by
          rintro (hinv | ⟨hsh2, hh, hm⟩)
          · rw [hIdx] at hinv; simp_all
          · exact absurd (hv.symm.trans hm) (by simp)
        have hnsucc : ¬ succeedsAt keys verify i := by
          rintro ⟨-, hs⟩
          exact absurd (hv.symm.trans hs) (by simp)
        have hstep : sigLoop verify keys (KeyReadResult.ok hsh :: rest) i =
            (false, keys) := by
          simp [sigLoop, hv]
        rw [hstep]
        refine ⟨?_, fun _ => rfl, fun h => absurd h (by simp)⟩
        constructor
        · intro h; exact absurd h (by simp)
        · intro hex; exact absurd hex (exists_blocked keys verify i hnc hnsucc)

theorem fst_ite_reject {c : Prop} [Decidable c] (keys : List KeyReadResult)
    (x : Bool × List KeyReadResult) :
    ((if c then ((false : Bool), keys) else x).1 = true) ↔ (¬ c ∧ x.1 = true) := by
  by_cases h : c <;> simp [h]

theorem validate_firmware_tail_char (init_retval : Int) (keys : List KeyReadResult)
    (e : BlEnv) (info_address : Nat) (fw_val_info : Option Nat) :
    (validate_firmware_tail init_retval keys e info_address fw_val_info).1 = true ↔
      ∃ va, fw_val_info = some va ∧ e.vinfo_address_at va = info_address ∧
        (validate_signature init_retval keys (e.rot_verify va)).1 = true := by
  cases fw_val_info with
  | none => simp [validate_firmware_tail]
  | some va =>
    by_cases h : e.vinfo_address_at va ≠ info_address
    · simp [validate_firmware_tail, if_pos h, h]
    · rw [not_not] at h
      simp [validate_firmware_tail, h]

theorem validate_firmware_char (s0 s1 : Nat) (init_retval : Int)
    (keys : List KeyReadResult) (e : BlEnv) (dst src : Nat)
    (fwinfo : Option Nat) (external : Bool) :
    (validate_firmware s0 s1 init_retval keys e dst src fwinfo external).1 = true ↔
      ∃ p, fwinfo = some p ∧
        e.fw_info_check p = true ∧
        dst = (e.info_at p).address ∧
        (external = true ∨ src = dst) ∧
        e.fw_info_find src = some p ∧
        (e.info_at p).valid = e.valid_val ∧
        get_monotonic_version e.monotonic_counter ≤ (e.info_at p).version ∧
        ((e.info_at p).size ≤ s0 ∧ (e.info_at p).size ≤ s1 ∧
          (e.info_at p).total_size ≤ (e.info_at p).size) ∧
        region_within p ((p + (e.info_at p).total_size) % 2 ^ 32)
          src ((src + (e.info_at p).size) % 2 ^ 32) = true ∧
        within (e.info_at p).boot_address dst
          ((dst + (e.info_at p).size) % 2 ^ 32) = true ∧
        within (e.mem_word (((e.info_at p).boot_address + 4) % 2 ^ 32)) dst
          ((dst + (e.info_at p).size) % 2 ^ 32) = true ∧
        ∃ va, validation_info_find e.vmagic_at
            ((src + (e.info_at p).size) % 2 ^ 32) 4 = some va ∧
          e.vinfo_address_at va = (e.info_at p).address ∧
          (validate_signature init_retval keys (e.rot_verify va)).1 = true := by
  cases fwinfo with
  | none =>
    constructor
    · intro h; exact absurd h (by simp [validate_firmware])
    · rintro ⟨q, hq, -⟩; exact absurd hq (by simp)
  | some p =>
    unfold validate_firmware
    simp only [fst_ite_reject, validate_firmware_tail_char]
    constructor
    · rintro ⟨hA, hB, hC, hD, hE, hF, hG, hH, hI, hJ, va, hK, hL, hM⟩
      have hC2 : external = true ∨ src = dst := by
        cases external
        · right
          by_contra hne
          exact hC (by simp [hne])
        · left; rfl
      have hG2 : (e.info_at p).size ≤ s0 ∧ (e.info_at p).size ≤ s1 ∧
          (e.info_at p).total_size ≤ (e.info_at p).size := by
        simp only [Bool.or_eq_true, decide_eq_true_eq] at hG
        omega
      exact ⟨p, rfl, by simpa using hA, of_not_not hB, hC2, of_not_not hD,
        of_not_not hE, by omega, hG2, by simpa using hH, by simpa using hI,
        by simpa using hJ, va, hK, hL, hM⟩
    · rintro ⟨q, hq, hA, hB, hC, hD, hE, hF, hG, hH, hI, hJ, va, hK, hL, hM⟩
      obtain rfl := Option.some.inj hq
      refine ⟨by simp [hA], not_not_intro hB, ?_, not_not_intro hD,
        not_not_intro hE, by omega, ?_, by simpa using hH, by simpa using hI,
        by simpa using hJ, va, hK, hL, hM⟩
      · rcases hC with h | h <;> simp [h]
      · simp only [Bool.or_eq_true, decide_eq_true_eq]
        omega

theorem validate_signature_false_frame (init_retval : Int)
    (keys : List KeyReadResult) (verify : Nat → RotResult) :
    (validate_signature init_retval keys verify).1 = false →
      (validate_signature init_retval keys verify).2 = keys := by
  unfold validate_signature
  by_cases h0 : init_retval ≠ 0
  · rw [if_pos h0]; intro _; rfl
  · rw [if_neg h0]
    exact (sigLoop_spec verify keys keys 0 (by simp)).2.1

theorem validate_firmware_tail_frame (init_retval : Int) (keys : List KeyReadResult)
    (e : BlEnv) (info_address : Nat) (fw_val_info : Option Nat) :
    (validate_firmware_tail init_retval keys e info_address fw_val_info).1 = false →
      (validate_firmware_tail init_retval keys e info_address fw_val_info).2 = keys := by
  cases fw_val_info with
  | none => intro _; rfl
  | some va =>
    by_cases h : e.vinfo_address_at va ≠ info_address
    · intro _
      simp [validate_firmware_tail, h]
    · have he : validate_firmware_tail init_retval keys e info_address (some va) =
          validate_signature init_retval keys (e.rot_verify va) := by
        simp [validate_firmware_tail, h]
      rw [he]
      exact validate_signature_false_frame init_retval keys (e.rot_verify va)

theorem ite_reject_frame {c : Prop} [Decidable c] (keys : List KeyReadResult)
    (x : Bool × List KeyReadResult) (hx : x.1 = false → x.2 = keys) :
    (if c then ((false : Bool), keys) else x).1 = false →
      (if c then ((false : Bool), keys) else x).2 = keys := by
  by_cases h : c
  · simp [h]
  · simpa [h] using hx

theorem validate_firmware_false_frame (s0 s1 : Nat) (init_retval : Int)
    (keys : List KeyReadResult) (e : BlEnv) (dst src : Nat)
    (fwinfo : Option Nat) (external : Bool) :
    (validate_firmware s0 s1 init_retval keys e dst src fwinfo external).1 = false →
      (validate_firmware s0 s1 init_retval keys e dst src fwinfo external).2 = keys := by
  cases fwinfo with
  | none => intro _; rfl
  | some p =>
    unfold validate_firmware
    exact ite_reject_frame keys _ (ite_reject_frame keys _ (ite_reject_frame keys _
      (ite_reject_frame keys _ (ite_reject_frame keys _ (ite_reject_frame keys _
        (ite_reject_frame keys _ (ite_reject_frame keys _ (ite_reject_frame keys _
          (ite_reject_frame keys _ (validate_firmware_tail_frame init_retval keys e
            (e.info_at p).address _))))))))))

/- ===== Claim theorems ===== -/

/-- C5: slot/parity round-trip of the monotonic counter adapter: for
every version ≤ 0x7FFF and slot equal to 0 or 1, decoding the stored
word `(version << 1) | !slot` through `(v >> 1, !(v & 1))` yields
exactly (version, slot) back. -/
theorem monotonic_roundtrip (version slot : Nat)
    (hv : version ≤ 0x7FFF) (hs : slot ≤ 1) :
    get_monotonic_version (monotonic_counter_word version slot) = version ∧
    get_monotonic_version_slot (monotonic_counter_word version slot) = slot := by
  rw [get_monotonic_version, get_monotonic_version_slot, monotonic_counter_word_eq,
    Nat.shiftRight_eq_div_pow, Nat.and_one_is_mod, pow_one]
  interval_cases slot <;> simp <;> omega

/-- Witness for C5 at version = 5, slot = 1. -/
theorem monotonic_roundtrip_witness :
    get_monotonic_version (monotonic_counter_word 5 1) = 5 ∧
    get_monotonic_version_slot (monotonic_counter_word 5 1) = 1 :=
  monotonic_roundtrip 5 1 (by decide) (by decide)

/-- C6 counterexample: with zero monotonic counter slots configured,
`set_monotonic_version` still returns the backend error (-5 here)
rather than success, so it is not the case that it reports success
regardless of what the underlying counter write reports. -/
theorem set_monotonic_version_zero_slots_propagates :
    set_monotonic_version 1 0 0 (fun _ => (-5 : Int)) = -5 ∧
      ((-5 : Int) ≠ 0) := by
  constructor
  · rfl
  · decide

/-- C6 amended: `set_monotonic_version` always returns exactly the
result of the underlying `set_monotonic_counter` write; the zero-slot
configuration only changes which diagnostic message is logged, it does
not mask the backend result. -/
theorem set_monotonic_version_returns_backend (version slot n : Nat)
    (f : Nat → Int) :
    set_monotonic_version version slot n f =
      f (monotonic_counter_word version slot) := rfl

/-- C7: `within addr start endAddr` is true iff start ≤ endAddr and
start ≤ addr < endAddr; in particular it is false for every malformed
range with start > endAddr, and the upper bound itself is never
within (half-open interval). -/
theorem within_spec (addr start endAddr : Nat) :
    (within addr start endAddr = true ↔
      start ≤ endAddr ∧ start ≤ addr ∧ addr < endAddr) ∧
    (start > endAddr → within addr start endAddr = false) ∧
    within endAddr start endAddr = false := by
  refine ⟨within_true_iff addr start endAddr, ?_, ?_⟩
  · intro h
    cases hw : within addr start endAddr
    · rfl
    · exact absurd ((within_true_iff addr start endAddr).mp hw) (by omega)
  · cases hw : within endAddr start endAddr
    · rfl
    · exact absurd ((within_true_iff endAddr start endAddr).mp hw) (by omega)

/-- Witness for C7: malformed range 7 > 4 rejects address 5. -/
theorem within_spec_witness : within 5 7 4 = false :=
  (within_spec 5 7 4).2.1 (by decide)

/-- C8: `region_within` is true iff inner_start ≤ inner_end and both
inner endpoints are individually within the outer range; a zero-length
inner region at a point strictly inside the half-open outer range is
accepted. -/
theorem region_within_spec (inner_start inner_end start endAddr : Nat) :
    (region_within inner_start inner_end start endAddr = true ↔
      inner_start ≤ inner_end ∧
      within inner_start start endAddr = true ∧
      within inner_end start endAddr = true) ∧
    (inner_start = inner_end → start ≤ inner_start → inner_start < endAddr →
      region_within inner_start inner_end start endAddr = true) := by
  constructor
  · exact region_within_true_iff inner_start inner_end start endAddr
  · intro he hs hl
    subst he
    simp only [region_within, if_neg (by omega : ¬ inner_start > inner_start)]
    have hw : within inner_start start endAddr = true :=
      (within_true_iff inner_start start endAddr).mpr (by omega)
    simp [hw]

/-- Witness for C8: the zero-length inner region [5, 5) inside [3, 8)
is accepted. -/
theorem region_within_spec_witness : region_within 5 5 3 8 = true :=
  (region_within_spec 5 5 3 8).2 rfl (by decide) (by decide)

/-- C2: validate_signature returns true iff crypto init succeeded and
the key scan reached some key k at which the root-of-trust call
succeeded, every earlier key having been either invalidated or a
key-hash mismatch (the only two outcomes that continue the loop);
every other situation — init failure, no usable key, all keys
invalidated or hash-mismatched, signature invalid, other error, or a
storage fault — yields false. -/
theorem validate_signature_true_iff (init_retval : Int) (keys : List KeyReadResult)
    (verify : Nat → RotResult) :
    (validate_signature init_retval keys verify).1 = true ↔
      init_retval = 0 ∧ ∃ k, k < keys.length ∧
        (∀ j, j < k → continuesAt keys verify j) ∧
        succeedsAt keys verify k := by
  unfold validate_signature
  by_cases h0 : init_retval = 0
  · rw [if_neg (by simp [h0])]
    rw [(sigLoop_spec verify keys keys 0 (by simp)).1]
    constructor
    · rintro ⟨k, -, hk, hpre, hsucc⟩
      exact ⟨h0, k, hk, fun j hj => hpre j (Nat.zero_le j) hj, hsucc⟩
    · rintro ⟨-, k, hk, hpre, hsucc⟩
      exact ⟨k, Nat.zero_le k, hk, fun j _ hj => hpre j hj, hsucc⟩
  · rw [if_pos h0]
    simp [h0]

/-- C3: if validate_signature returns false the key store is left
exactly as it was (no slot invalidated); if it returns true with the
scan succeeding at slot k, every slot of index strictly less than k
ends up invalidated and every slot of index at least k is untouched. -/
theorem validate_signature_invalidation (init_retval : Int)
    (keys : List KeyReadResult) (verify : Nat → RotResult) :
    ((validate_signature init_retval keys verify).1 = false →
      (validate_signature init_retval keys verify).2 = keys) ∧
    ((validate_signature init_retval keys verify).1 = true →
      ∃ k, k < keys.length ∧
        (∀ j, j < k → continuesAt keys verify j) ∧
        succeedsAt keys verify k ∧
        (∀ j, j < k → ((validate_signature init_retval keys verify).2)[j]? =
          some KeyReadResult.invalidated) ∧
        (∀ j, k ≤ j → ((validate_signature init_retval keys verify).2)[j]? =
          keys[j]?)) := by
  unfold validate_signature
  by_cases h0 : init_retval = 0
  · rw [if_neg (by simp [h0])]
    obtain ⟨-, h2, h3⟩ := sigLoop_spec verify keys keys 0 (by simp)
    refine ⟨h2, ?_⟩
    intro ht
    obtain ⟨k, -, hk, hpre, hsucc, heq⟩ := h3 ht
    refine ⟨k, hk, fun j hj => hpre j (Nat.zero_le j) hj, hsucc, ?_, ?_⟩
    · intro j hj
      rw [heq]
      exact invalidateBelow_getElem_lt keys k j hj (by omega)
    · intro j hj
      rw [heq]
      exact invalidateBelow_getElem_ge keys k j hj
  · rw [if_pos h0]
    exact ⟨fun _ => rfl, fun h => absurd h (by simp)⟩

/-- Witness for C3: with three good keys where key 0 hash-mismatches
and key 1 verifies, the returning store has slot 0 invalidated and
slots from 1 up untouched; and a failing run (all keys
signature-invalid) leaves the store untouched. -/
theorem validate_signature_invalidation_witness :
    ((validate_signature 0 exKeys exVerifyFail).2 = exKeys) ∧
    (∃ k, k < exKeys.length ∧
      (∀ j, j < k → continuesAt exKeys exVerify j) ∧
      succeedsAt exKeys exVerify k ∧
      (∀ j, j < k → ((validate_signature 0 exKeys exVerify).2)[j]? =
        some KeyReadResult.invalidated) ∧
      (∀ j, k ≤ j → ((validate_signature 0 exKeys exVerify).2)[j]? =
        exKeys[j]?)) :=
  ⟨(validate_signature_invalidation 0 exKeys exVerifyFail).1 (by decide),
   (validate_signature_invalidation 0 exKeys exVerify).2 (by decide)⟩

/-- C9: in the key-scanning loop an invalidated slot is skipped (the
loop proceeds to the next index), whereas a read reporting the
unsupported 0xFFFF sentinel or any other storage fault terminates the
whole loop at once with overall result false and no key touched — in
particular a key store whose first read faults yields false without
the remaining keys being consulted. -/
theorem validate_signature_read_errors (verify : Nat → RotResult)
    (keys rest : List KeyReadResult) (i : Nat) :
    (sigLoop verify keys (KeyReadResult.invalidated :: rest) i =
      sigLoop verify keys rest (i + 1)) ∧
    (sigLoop verify keys (KeyReadResult.unsupportedSentinel :: rest) i =
      (false, keys)) ∧
    (sigLoop verify keys (KeyReadResult.fault :: rest) i = (false, keys)) ∧
    (validate_signature 0 (KeyReadResult.unsupportedSentinel :: rest) verify =
      (false, KeyReadResult.unsupportedSentinel :: rest)) ∧
    (validate_signature 0 (KeyReadResult.fault :: rest) verify =
      (false, KeyReadResult.fault :: rest)) :=
  ⟨rfl, rfl, rfl, by simp [validate_signature, sigLoop], by simp [validate_signature, sigLoop]⟩

/-- C1: validate_firmware returns true iff every one of the thirteen
checks passes — firmware info present and magic-checked, destination
address match, src = dst for local calls, self-reference of the found
info, valid sentinel, monotonic version, size sanity, info region
containment, boot address containment, reset handler containment,
validation info found, validation info address binding, and the
delegated signature verification; and whenever any check makes it
return false the key store is left untouched, so the failing check
short-circuits before the delegated verifier can have any effect. -/
theorem validate_firmware_thirteen_checks (s0 s1 : Nat) (init_retval : Int)
    (keys : List KeyReadResult) (e : BlEnv) (dst src : Nat)
    (fwinfo : Option Nat) (external : Bool) :
    ((validate_firmware s0 s1 init_retval keys e dst src fwinfo external).1 = true ↔
      ∃ p, fwinfo = some p ∧
        e.fw_info_check p = true ∧
        dst = (e.info_at p).address ∧
        (external = true ∨ src = dst) ∧
        e.fw_info_find src = some p ∧
        (e.info_at p).valid = e.valid_val ∧
        get_monotonic_version e.monotonic_counter ≤ (e.info_at p).version ∧
        ((e.info_at p).size ≤ s0 ∧ (e.info_at p).size ≤ s1 ∧
          (e.info_at p).total_size ≤ (e.info_at p).size) ∧
        region_within p ((p + (e.info_at p).total_size) % 2 ^ 32)
          src ((src + (e.info_at p).size) % 2 ^ 32) = true ∧
        within (e.info_at p).boot_address dst
          ((dst + (e.info_at p).size) % 2 ^ 32) = true ∧
        within (e.mem_word (((e.info_at p).boot_address + 4) % 2 ^ 32)) dst
          ((dst + (e.info_at p).size) % 2 ^ 32) = true ∧
        ∃ va, validation_info_find e.vmagic_at
            ((src + (e.info_at p).size) % 2 ^ 32) 4 = some va ∧
          e.vinfo_address_at va = (e.info_at p).address ∧
          (validate_signature init_retval keys (e.rot_verify va)).1 = true) ∧
    ((validate_firmware s0 s1 init_retval keys e dst src fwinfo external).1 = false →
      (validate_firmware s0 s1 init_retval keys e dst src fwinfo external).2 = keys) :=
  ⟨validate_firmware_char s0 s1 init_retval keys e dst src fwinfo external,
   validate_firmware_false_frame s0 s1 init_retval keys e dst src fwinfo external⟩

/-- Witness for C1: a concrete rejected candidate (stored monotonic
version 5 exceeds the candidate version 3) leaves the key store
untouched. -/
theorem validate_firmware_thirteen_checks_witness :
    (validate_firmware 0x2000 0x2000 0 exKeys exEnvRoll
      0x8000 0x8000 (some 0x8100) true).2 = exKeys :=
  (validate_firmware_thirteen_checks 0x2000 0x2000 0 exKeys exEnvRoll
    0x8000 0x8000 (some 0x8100) true).2 (by decide)

/-- C4: a candidate whose firmware version is strictly below the
stored monotonic version is rejected with the key store untouched (the
rejection fires before the trust verifier is reached); and when the
version is at least the stored one the rollback check has no effect on
the outcome: the run is identical to a run with the stored counter
cleared to zero. -/
theorem validate_firmware_rollback (s0 s1 : Nat) (init_retval : Int)
    (keys : List KeyReadResult) (e : BlEnv) (dst src p : Nat) (external : Bool) :
    ((e.info_at p).version < get_monotonic_version e.monotonic_counter →
      validate_firmware s0 s1 init_retval keys e dst src (some p) external =
        (false, keys)) ∧
    (get_monotonic_version e.monotonic_counter ≤ (e.info_at p).version →
      validate_firmware s0 s1 init_retval keys e dst src (some p) external =
        validate_firmware s0 s1 init_retval keys
          { e with monotonic_counter := 0 } dst src (some p) external) := by
  constructor
  · intro hlt
    have h1 : (validate_firmware s0 s1 init_retval keys e dst src (some p)
        external).1 = false := by
      cases hres : (validate_firmware s0 s1 init_retval keys e dst src (some p)
          external).1
      · rfl
      · exfalso
        obtain ⟨q, hq, -, -, -, -, -, hF, -⟩ :=
          (validate_firmware_char s0 s1 init_retval keys e dst src (some p)
            external).mp hres
        obtain rfl := Option.some.inj hq
        omega
    have h2 := validate_firmware_false_frame s0 s1 init_retval keys e dst src
      (some p) external h1
    exact Prod.ext h1 h2
  · intro hge
    have h6 : ¬ ((e.info_at p).version <
        get_monotonic_version e.monotonic_counter) := by omega
    have h6z : ¬ ((e.info_at p).version < get_monotonic_version 0) := by
      simp [get_monotonic_version]
    unfold validate_firmware
    dsimp only
    rw [if_neg h6, if_neg h6z]
    rfl

/-- Witness for C4: the rejected rollback run returns (false, keys)
with the store untouched, and a run with version 3 against stored
version 3 equals the run with the counter cleared. -/
theorem validate_firmware_rollback_witness :
    (validate_firmware 0x2000 0x2000 0 exKeys exEnvRoll 0x8000 0x8000
      (some 0x8100) true = (false, exKeys)) ∧
    (validate_firmware 0x2000 0x2000 0 exKeys exEnvOk 0x8000 0x8000
      (some 0x8100) true =
     validate_firmware 0x2000 0x2000 0 exKeys
      { exEnvOk with monotonic_counter := 0 } 0x8000 0x8000 (some 0x8100) true) :=
  ⟨(validate_firmware_rollback 0x2000 0x2000 0 exKeys exEnvRoll
      0x8000 0x8000 0x8100 true).1 (by decide),
   (validate_firmware_rollback 0x2000 0x2000 0 exKeys exEnvOk
      0x8000 0x8000 0x8100 true).2 (by decide)⟩

/-- C10: address wraparound fails closed: whenever the signed region
end fw_src_address + size computed in 32-bit modular arithmetic is
strictly below fw_src_address, validate_firmware rejects, because the
region containment check rejects an outer region whose computed end
precedes its start. -/
theorem validate_firmware_wrap (s0 s1 : Nat) (init_retval : Int)
    (keys : List KeyReadResult) (e : BlEnv) (dst src p : Nat) (external : Bool)
    (hwrap : (src + (e.info_at p).size) % 2 ^ 32 < src) :
    (validate_firmware s0 s1 init_retval keys e dst src (some p) external).1 =
      false := by
  cases hres : (validate_firmware s0 s1 init_retval keys e dst src (some p)
      external).1
  · rfl
  · exfalso
    obtain ⟨q, hq, -, -, -, -, -, -, -, hH, -⟩ :=
      (validate_firmware_char s0 s1 init_retval keys e dst src (some p)
        external).mp hres
    obtain rfl := Option.some.inj hq
    have hw := ((region_within_true_iff _ _ _ _).mp hH).2.1
    have hle := ((within_true_iff _ _ _).mp hw).1
    omega

/-- Witness for C10: a source address of 0xFFFFF000 with image size
0x2000 wraps (end 0x1000), and validation rejects. -/
theorem validate_firmware_wrap_witness :
    (validate_firmware 0x10000 0x10000 0 exKeys exEnvWrap 0xFFFFF000 0xFFFFF000
      (some 7) false).1 = false :=
  validate_firmware_wrap 0x10000 0x10000 0 exKeys exEnvWrap 0xFFFFF000 0xFFFFF000
    7 false (by decide)

end BlValidation
